import Mathlib

/-!
Shallow embedding of `src/main.py` (a FastAPI proxy over the GitHub REST and
GraphQL APIs) and proofs about its four endpoints.

Modelling conventions:
* JSON values (what `response.json()` yields, including Python `None`) are the
  inductive type `Json`.
* Python `dict.get` is `Json.get?`: it returns `none` (an `AttributeError`,
  i.e. an uncaught exception) when the receiver is not a dict, and otherwise
  the stored value or the supplied default.
* Python truthiness (`if not sha`, `if project_title_filter`, `if patch`) is
  `Json.truthy` / `strOptTruthy`.
* Each upstream HTTP call is a function argument yielding a `Response`
  (status code plus parsed JSON body); the endpoint bodies are pure.
* An endpoint run produces an `ApiResult`: `ok` (returned JSON), `httpError`
  (a raised `HTTPException` with status and detail), or `crash` (an uncaught
  Python exception, surfaced by the framework as a 500).
-/

/-- A JSON value as produced by `response.json()`; `null` also stands for Python `None`. -/
inductive Json where
  | null
  | bool (b : Bool)
  | num (n : Int)
  | str (s : String)
  | arr (elems : List Json)
  | obj (fields : List (String × Json))

/-- First-match lookup in an association list of JSON object fields
(Python dicts have unique keys, so first-match agrees with dict lookup). -/
def dictGet : List (String × Json) → String → Option Json
  | [], _ => none
  | (k, v) :: rest, key => if k = key then some v else dictGet rest key

/-- Whether a JSON value is an object (a Python dict). -/
def Json.isObj : Json → Bool
  | .obj _ => true
  | _ => false

/-- Python `d.get(key, dflt)`: `none` models the `AttributeError` raised when
the receiver is not a dict. -/
def Json.get? (j : Json) (key : String) (dflt : Json) : Option Json :=
  match j with
  | .obj fields => some ((dictGet fields key).getD dflt)
  | _ => none

/-- Direct field lookup (no default): `some v` iff the value is an object
carrying the key. Used to state properties, and to model `d[key]` where
`none` is a `KeyError`/`TypeError`. -/
def Json.index? (j : Json) (key : String) : Option Json :=
  match j with
  | .obj fields => dictGet fields key
  | _ => none

/-- View a JSON value as a list, as Python `for x in v` requires; `none`
models the `TypeError` on non-iterable values. -/
def Json.asList? : Json → Option (List Json)
  | .arr elems => some elems
  | _ => none

/-- View a JSON value as a string, as Python `.lower()` requires. -/
def Json.asStr? : Json → Option String
  | .str s => some s
  | _ => none

/-- Python truthiness of a JSON value. -/
def Json.truthy : Json → Bool
  | .null => false
  | .bool b => b
  | .num n => n != 0
  | .str s => s != ""
  | .arr elems => !elems.isEmpty
  | .obj fields => !fields.isEmpty

/-- Python `v == "lit"` where `v` is an arbitrary JSON value: true only when
`v` is that exact string. -/
def Json.eqStr (j : Json) (s : String) : Bool :=
  match j with
  | .str t => t = s
  | _ => false

/-- Python truthiness of an `Optional[str]` parameter: `None` and `""` are falsy. -/
def strOptTruthy : Option String → Bool
  | none => false
  | some s => s != ""

/-- An upstream HTTP response: status code and parsed JSON body. -/
structure Response where
  status : Nat
  body : Json

/-- Outcome of one endpoint invocation. `crash` models an uncaught Python
exception (the framework turns it into a 500); `httpError` models a raised
`HTTPException status detail`. -/
inductive ApiResult where
  | ok (body : Json)
  | httpError (status : Nat) (detail : Json)
  | crash

/-- A Python `datetime` value, modelled abstractly by its ISO-8601
serialization: `isoformat` is the string `d.isoformat()` returns. Every
`datetime` object is truthy in Python 3. -/
structure Datetime where
  isoformat : String

/-- Lines 25-31 and 57-63 of `src/main.py`: the query-parameter dict built for
the commit-list request when `branch`, `since`, `until` are `Optional[str]`
(the `get_commits` and `get_commits_with_diff` endpoints). An entry is added
only when the parameter is truthy. -/
def commitListParams (branch since untilS : Option String) : List (String × String) :=
  (match branch with
   | some b => if b = "" then [] else [("sha", b)]
   | none => []) ++
  (match since with
   | some s => if s = "" then [] else [("since", s)]
   | none => []) ++
  (match untilS with
   | some u => if u = "" then [] else [("until", u)]
   | none => [])

/-- Lines 111-117 of `src/main.py`: the query-parameter dict built by
`get_commit_messages_and_changes`, where `since`/`until` are
`Optional[datetime]` and are serialized with `.isoformat()`. -/
def messagesParams (branch : Option String) (since untilD : Option Datetime) : List (String × String) :=
  (match branch with
   | some b => if b = "" then [] else [("sha", b)]
   | none => []) ++
  (match since with
   | some d => [("since", d.isoformat)]
   | none => []) ++
  (match untilD with
   | some d => [("until", d.isoformat)]
   | none => [])

/-- Lines 8-38 of `src/main.py`: the `get_commits` passthrough endpoint.
`fetchList` is the upstream commit-list call, keyed by the query parameters
sent. -/
def get_commits_raw (branch since untilS : Option String)
    (fetchList : List (String × String) → Response) : ApiResult :=
  let response := fetchList (commitListParams branch since untilS)
  if response.status = 200 then .ok response.body
  else .httpError response.status response.body

/-- Lines 74-90 of `src/main.py`: the body of one iteration of the commit loop
in `get_commits_with_diff`. Result: `none` = uncaught exception; `some none` =
`continue` (commit skipped); `some (some entry)` = entry appended to `result`. -/
def withDiffStep (fetchDetail : Json → Response) (commit : Json) : Option (Option Json) :=
  match commit.get? "sha" .null with
  | none => none
  | some sha =>
    if sha.truthy = false then some none
    else
      let detail_res := fetchDetail sha
      if detail_res.status ≠ 200 then some none
      else
        match commit.get? "commit" .null, commit.get? "author" .null,
              detail_res.body.get? "files" (.arr []) with
        | some commitField, some authorField, some files =>
            some (some (.obj [("sha", sha), ("commit", commitField),
                              ("author", authorField), ("files", files)]))
        | _, _, _ => none

/-- The `result = []; for ...: ... result.append(...)` accumulation pattern
shared by the three aggregation loops: `step` returns `none` on an uncaught
exception (aborting the whole request), `some none` for a skipped element and
`some (some entry)` for an appended entry. -/
def aggregateLoop (step : Json → Option (Option Json)) : List Json → Option (List Json)
  | [] => some []
  | c :: rest =>
    match step c with
    | none => none
    | some none => aggregateLoop step rest
    | some (some entry) =>
      match aggregateLoop step rest with
      | none => none
      | some entries => some (entry :: entries)

/-- Lines 40-92 of `src/main.py`: the `get_commits_with_diff` endpoint.
`fetchList` is the commit-list call (keyed by query parameters), `fetchDetail`
the per-commit detail call (keyed by the sha value interpolated into the URL). -/
def get_commits_with_diff (branch since untilS : Option String)
    (fetchList : List (String × String) → Response) (fetchDetail : Json → Response) : ApiResult :=
  let commits_res := fetchList (commitListParams branch since untilS)
  if commits_res.status ≠ 200 then .httpError commits_res.status commits_res.body
  else
    match commits_res.body.asList? with
    | none => .crash
    | some commits =>
      match aggregateLoop (withDiffStep fetchDetail) commits with
      | none => .crash
      | some entries => .ok (.arr entries)

/-- Lines 139-148 of `src/main.py`: the `for file in detail.get("files", [])`
loop collecting `{filename, patch}` records for truthy patches. -/
def patchLoop : List Json → Option (List Json)
  | [] => some []
  | file :: rest =>
    match file.get? "patch" .null, file.get? "filename" .null with
    | some patch, some filename =>
      match patchLoop rest with
      | none => none
      | some patches =>
        some (if patch.truthy then (Json.obj [("filename", filename), ("patch", patch)]) :: patches
              else patches)
    | _, _ => none

/-- Lines 136-153 of `src/main.py`: derive the `{message, changes}` record from
one commit-detail body (`message = detail.get("commit", {}).get("message", "")`;
`changes` from `patchLoop` over `detail.get("files", [])`). -/
def extractPatches (detail : Json) : Option Json :=
  match detail.get? "commit" (.obj []) with
  | none => none
  | some commitVal =>
    match commitVal.get? "message" (.str "") with
    | none => none
    | some message =>
      match detail.get? "files" (.arr []) with
      | none => none
      | some filesVal =>
        match filesVal.asList? with
        | none => none
        | some files =>
          match patchLoop files with
          | none => none
          | some patches => some (.obj [("message", message), ("changes", .arr patches)])

/-- Lines 127-153 of `src/main.py`: one iteration of the commit loop in
`get_commit_messages_and_changes`. -/
def messagesStep (fetchDetail : Json → Response) (commit : Json) : Option (Option Json) :=
  match commit.get? "sha" .null with
  | none => none
  | some sha =>
    if sha.truthy = false then some none
    else
      let detail_res := fetchDetail sha
      if detail_res.status ≠ 200 then some none
      else
        match extractPatches detail_res.body with
        | none => none
        | some record => some (some record)

/-- Lines 94-155 of `src/main.py`: the `get_commit_messages_and_changes`
endpoint. -/
def get_commit_messages_and_changes (branch : Option String) (since untilD : Option Datetime)
    (fetchList : List (String × String) → Response) (fetchDetail : Json → Response) : ApiResult :=
  let commits_res := fetchList (messagesParams branch since untilD)
  if commits_res.status ≠ 200 then .httpError commits_res.status commits_res.body
  else
    match commits_res.body.asList? with
    | none => .crash
    | some commits =>
      match aggregateLoop (messagesStep fetchDetail) commits with
      | none => .crash
      | some entries => .ok (.arr entries)

/-- Whether `needle` occurs as a contiguous run inside `hay` (character lists). -/
def containsFrom (needle : List Char) : List Char → Bool
  | [] => needle.isEmpty
  | c :: rest => needle.isPrefixOf (c :: rest) || containsFrom needle rest

/-- Python `needle in hay` on strings: substring containment. -/
def pyStrIn (needle hay : String) : Bool :=
  containsFrom needle.toList hay.toList

/-- ASCII model of Python `str.lower()` (character-wise lowercasing). -/
def pyLower (s : String) : String :=
  String.mk (s.data.map Char.toLower)

/-- Line 190 of `src/main.py`: the
`.get("data", {}).get("repository", {}).get("projectsV2", {}).get("nodes", [])`
chain extracting the project list from the first GraphQL response body. -/
def projectNodesOf (body : Json) : Option Json :=
  match body.get? "data" (.obj []) with
  | none => none
  | some dataVal =>
    match dataVal.get? "repository" (.obj []) with
    | none => none
    | some repoVal =>
      match repoVal.get? "projectsV2" (.obj []) with
      | none => none
      | some projectsVal => projectsVal.get? "nodes" (.arr [])

/-- Lines 198-201 of `src/main.py`: the `for p in project_nodes` scan selecting
the first project whose lowercased title contains the lowercased filter.
Result: `none` = uncaught exception (`p["title"]` missing or not a string);
`some none` = loop finished with no match; `some (some p)` = `p` selected. -/
def findProject (filterLower : String) : List Json → Option (Option Json)
  | [] => some none
  | p :: rest =>
    match p.index? "title" with
    | none => none
    | some titleVal =>
      match titleVal.asStr? with
      | none => none
      | some title =>
        if pyStrIn filterLower (pyLower title) then some (some p)
        else findProject filterLower rest

/-- Lines 195-205 of `src/main.py`: project selection. When the filter is
truthy, scan with `findProject`; otherwise take `project_nodes[0]` (whose
failure on an empty list is an `IndexError`, unreachable behind the emptiness
check). `some none` = the filter matched nothing (the 404 path). -/
def selectProject (filter : Option String) (nodes : List Json) : Option (Option Json) :=
  if strOptTruthy filter then
    findProject (pyLower (filter.getD "")) nodes
  else
    match nodes.head? with
    | some p => some (some p)
    | none => none

/-- Lines 261-264 of `src/main.py`: the `for field in ...` scan over one item's
field-value nodes looking for a field named "status" (case-insensitively).
`some none` = loop finished with `status` still `None`; `some (some v)` =
`status = field.get("name")` taken from the first match. -/
def findStatus : List Json → Option (Option Json)
  | [] => some none
  | fieldNode :: rest =>
    match fieldNode.get? "field" (.obj []) with
    | none => none
    | some fieldVal =>
      match fieldVal.get? "name" (.str "") with
      | none => none
      | some fname =>
        match fname.asStr? with
        | none => none
        | some s =>
          if pyLower s = "status" then
            match fieldNode.get? "name" .null with
            | none => none
            | some statusVal => some (some statusVal)
          else findStatus rest

/-- Lines 267-274 of `src/main.py`: the simplified record appended to
`todo_items` for a retained item. -/
def todoRecord (item : Json) : Option Json :=
  match item.get? "content" (.obj []) with
  | none => none
  | some content =>
    match item.get? "id" .null, content.get? "title" .null, content.get? "number" .null,
          content.get? "state" .null, content.get? "url" .null with
    | some i, some t, some n, some s, some u =>
        some (.obj [("id", i), ("title", t), ("number", n), ("state", s), ("url", u)])
    | _, _, _, _, _ => none

/-- Lines 259-274 of `src/main.py`: one iteration of the `for item in items`
loop (status lookup, the `status == "Todo"` test, and the append). -/
def todoStep (item : Json) : Option (Option Json) :=
  match item.get? "fieldValues" (.obj []) with
  | none => none
  | some fieldValuesVal =>
    match fieldValuesVal.get? "nodes" (.arr []) with
    | none => none
    | some nodesVal =>
      match nodesVal.asList? with
      | none => none
      | some fieldNodes =>
        match findStatus fieldNodes with
        | none => none
        | some statusOpt =>
          if (statusOpt.getD .null).eqStr "Todo" then
            match todoRecord item with
            | none => none
            | some record => some (some record)
          else some none

/-- Line 255 of `src/main.py`: `item_res.json().get("data", {}).get("node", {})`. -/
def projectDataOf (body : Json) : Option Json :=
  match body.get? "data" (.obj []) with
  | none => none
  | some dataVal => dataVal.get? "node" (.obj [])

/-- Line 256 of `src/main.py`: `project_data.get("items", {}).get("nodes", [])`. -/
def itemsNodesOf (project_data : Json) : Option Json :=
  match project_data.get? "items" (.obj []) with
  | none => none
  | some itemsVal => itemsVal.get? "nodes" (.arr [])

/-- Lines 251-279 of `src/main.py`: the tail of `get_repo_project_todo_items`
from the second GraphQL response onwards (status check, item extraction, the
todo loop, and the final `{project_title, todo_items}` response). -/
def todoPhase (item_res : Response) : ApiResult :=
  if item_res.status ≠ 200 then .httpError item_res.status item_res.body
  else
    match projectDataOf item_res.body with
    | none => .crash
    | some project_data =>
      match itemsNodesOf project_data with
      | none => .crash
      | some itemsVal =>
        match itemsVal.asList? with
        | none => .crash
        | some items =>
          match aggregateLoop todoStep items with
          | none => .crash
          | some todo_items =>
            match project_data.get? "title" .null with
            | none => .crash
            | some title => .ok (.obj [("project_title", title), ("todo_items", .arr todo_items)])

/-- Lines 157-279 of `src/main.py`: the `get_repo_project_todo_items` endpoint.
`projectRes` is the first GraphQL response (project list), `fetchItems` the
second GraphQL call, keyed by the project id interpolated into the query. -/
def get_repo_project_todo_items (project_title_filter : Option String)
    (projectRes : Response) (fetchItems : Json → Response) : ApiResult :=
  if projectRes.status ≠ 200 then .httpError projectRes.status projectRes.body
  else
    match projectNodesOf projectRes.body with
    | none => .crash
    | some nodesVal =>
      if nodesVal.truthy = false then
        .httpError 404 (.str "해당 레포에 연결된 Project v2가 없습니다.")
      else
        match nodesVal.asList? with
        | none => .crash
        | some project_nodes =>
          match selectProject project_title_filter project_nodes with
          | none => .crash
          | some none =>
            .httpError 404 (.str ("'" ++ project_title_filter.getD "" ++
              "'에 해당하는 프로젝트를 찾을 수 없습니다."))
          | some (some selected_project) =>
            match selected_project.index? "id" with
            | none => .crash
            | some project_id => todoPhase (fetchItems project_id)

/-- Spec side of claim C4 ("changes ... contains, in file order, exactly the
files having a non-empty, non-null patch string, each emitted with its
filename and patch"): the change record a file contributes, if any. -/
def claimPatchEntry (file : Json) : Option Json :=
  match file.index? "patch" with
  | some (.str s) =>
    if s = "" then none
    else some (.obj [("filename", (file.index? "filename").getD .null), ("patch", .str s)])
  | _ => none

/-- Spec side of claim C7: whether a field-value node's field name equals
"Status" under case-insensitive comparison. -/
def claimIsStatusField (fieldNode : Json) : Bool :=
  match fieldNode.index? "field" with
  | some (.obj ff) =>
    match dictGet ff "name" with
    | some (.str s) => pyLower s = "status"
    | _ => false
  | _ => false

/-- Spec side of claim C7: the status of an item is the option name of the
first field value (in field-value order) whose field name is "Status"
case-insensitively; `none` when no such field value exists. -/
def claimStatusOf (fieldNodes : List Json) : Option Json :=
  match fieldNodes.find? claimIsStatusField with
  | some fieldNode => some ((fieldNode.index? "name").getD .null)
  | none => none

/-- Spec side of claim C7: an item's field-value node list (empty when the
nesting is absent). -/
def claimFieldsOf (item : Json) : List Json :=
  match item.index? "fieldValues" with
  | some (.obj fv) =>
    match dictGet fv "nodes" with
    | some (.arr ns) => ns
    | _ => []
  | _ => []

/-- Spec side of claim C7: an item is retained iff its status equals the
literal string "Todo" with exact case. -/
def claimRetained (item : Json) : Bool :=
  match claimStatusOf (claimFieldsOf item) with
  | some (.str s) => s = "Todo"
  | _ => false

/-- Well-formedness of one field-value node: it is an object whose "field"
entry, when present, is an object whose "name" entry, when present, is a
string. Exactly what the scan at lines 261-264 needs not to raise. -/
def fieldWF (fieldNode : Json) : Bool :=
  fieldNode.isObj &&
  (match fieldNode.index? "field" with
   | none => true
   | some (.obj ff) =>
     (match dictGet ff "name" with
      | none => true
      | some (.str _) => true
      | some _ => false)
   | some _ => false)

/-- Well-formedness of one project item: an object whose "fieldValues" entry,
when present, is an object whose "nodes" entry, when present, is a list of
well-formed field-value nodes, and whose "content" entry, when present, is an
object. -/
def itemWF (item : Json) : Bool :=
  item.isObj &&
  (match item.index? "fieldValues" with
   | none => true
   | some (.obj fv) =>
     (match dictGet fv "nodes" with
      | none => true
      | some (.arr ns) => ns.all fieldWF
      | some _ => false)
   | some _ => false) &&
  (match item.index? "content" with
   | none => true
   | some (.obj _) => true
   | some _ => false)

/-- Well-formedness of the second GraphQL response body: every level of the
`data.node.items.nodes` chain is absent or an object, and the item list, when
present, is a list of well-formed items. -/
def itemsBodyWF (body : Json) : Bool :=
  match body with
  | .obj bf =>
    (match dictGet bf "data" with
     | none => true
     | some (.obj df) =>
       (match dictGet df "node" with
        | none => true
        | some (.obj nf) =>
          (match dictGet nf "items" with
           | none => true
           | some (.obj itf) =>
             (match dictGet itf "nodes" with
              | none => true
              | some (.arr items) => items.all itemWF
              | some _ => false)
           | some _ => false)
        | some _ => false)
     | some _ => false)
  | _ => false

/-- If every element's step agrees with `f`, the loop collects `filterMap f`. -/
theorem aggregateLoop_filterMap (step : Json → Option (Option Json)) (f : Json → Option Json) :
    ∀ cs : List Json, (∀ c ∈ cs, step c = some (f c)) →
      aggregateLoop step cs = some (cs.filterMap f)
  | [], _ => rfl
  | c :: cs, h => by
    have hc : step c = some (f c) := h c (List.mem_cons_self c cs)
    have ih := aggregateLoop_filterMap step f cs (fun x hx => h x (List.mem_cons_of_mem c hx))
    cases hfc : f c with
    | none => simp [aggregateLoop, hc, hfc, ih]
    | some e => simp [aggregateLoop, hc, hfc, ih]

/-- If every element is kept and related to its entry by `P`, the loop yields a
list `Forall₂`-related to the input. -/
theorem aggregateLoop_forall2 (step : Json → Option (Option Json)) (P : Json → Json → Prop) :
    ∀ cs : List Json, (∀ c ∈ cs, ∃ e, step c = some (some e) ∧ P c e) →
      ∃ out, aggregateLoop step cs = some out ∧ List.Forall₂ P cs out
  | [], _ => ⟨[], rfl, List.Forall₂.nil⟩
  | c :: cs, h => by
    obtain ⟨e, he, hPe⟩ := h c (List.mem_cons_self c cs)
    obtain ⟨out, hout, hP⟩ :=
      aggregateLoop_forall2 step P cs (fun x hx => h x (List.mem_cons_of_mem c hx))
    exact ⟨e :: out, by simp [aggregateLoop, he, hout], List.Forall₂.cons hPe hP⟩

/-- The loop distributes over append when both halves succeed. -/
theorem aggregateLoop_append (step : Json → Option (Option Json)) (xs ys as bs : List Json)
    (hx : aggregateLoop step xs = some as) (hy : aggregateLoop step ys = some bs) :
    aggregateLoop step (xs ++ ys) = some (as ++ bs) := by
  induction xs generalizing as with
  | nil =>
    simp only [aggregateLoop] at hx
    cases hx
    simpa using hy
  | cons c xs ih =>
    rw [List.cons_append]
    simp only [aggregateLoop] at hx ⊢
    cases hc : step c with
    | none => rw [hc] at hx; cases hx
    | some o =>
      rw [hc] at hx
      cases o with
      | none => exact ih as hx
      | some e =>
        cases hrest : aggregateLoop step xs with
        | none => rw [hrest] at hx; cases hx
        | some entries =>
          rw [hrest] at hx
          cases hx
          rw [ih entries hrest]
          rfl

/-- A skipped element in the middle of the list leaves the loop's result
unchanged. -/
theorem aggregateLoop_skip_mid (step : Json → Option (Option Json)) (c : Json)
    (hc : step c = some none) (pre post : List Json) :
    aggregateLoop step (pre ++ c :: post) = aggregateLoop step (pre ++ post) := by
  induction pre with
  | nil => simp [aggregateLoop, hc]
  | cons p pre ih =>
    rw [List.cons_append, List.cons_append]
    simp only [aggregateLoop]
    rw [ih]

/-- A `Forall₂` of pointwise projection equality gives equality of the mapped
lists. -/
theorem forall2_map_eq {α β γ : Type} (f : β → γ) (g : α → γ) {cs : List α} {out : List β}
    (h : List.Forall₂ (fun c e => f e = g c) cs out) : out.map f = cs.map g := by
  induction h with
  | nil => rfl
  | cons hh _ ih => simp [hh, ih]

/-- The empty string is a substring of every string, as Python's `in` has it. -/
theorem containsFrom_nil (l : List Char) : containsFrom [] l = true := by
  cases l <;> simp [containsFrom, List.isPrefixOf]

/-- A commit with a nonempty string sha whose detail fetch returns 200 with an
object body yields an appended entry carrying the same sha. -/
theorem withDiffStep_kept (fetchDetail : Json → Response) (c : Json) (s : String)
    (hs : c.index? "sha" = some (.str s)) (hne : s ≠ "")
    (h200 : (fetchDetail (.str s)).status = 200)
    (hobj : (fetchDetail (.str s)).body.isObj = true) :
    ∃ e, withDiffStep fetchDetail c = some (some e) ∧ e.index? "sha" = some (.str s) := by
  cases c with
  | obj fields =>
    simp only [Json.index?] at hs
    cases hb : (fetchDetail (.str s)).body with
    | obj dfields =>
      refine ⟨.obj [("sha", .str s), ("commit", (dictGet fields "commit").getD .null),
                    ("author", (dictGet fields "author").getD .null),
                    ("files", (dictGet dfields "files").getD (.arr []))], ?_, ?_⟩
      · simp [withDiffStep, Json.get?, hs, Json.truthy, hne, h200, hb]
      · simp [Json.index?, dictGet]
    | null => simp [Json.isObj, hb] at hobj
    | bool b => simp [Json.isObj, hb] at hobj
    | num n => simp [Json.isObj, hb] at hobj
    | str t => simp [Json.isObj, hb] at hobj
    | arr l => simp [Json.isObj, hb] at hobj
  | null => simp [Json.index?] at hs
  | bool b => simp [Json.index?] at hs
  | num n => simp [Json.index?] at hs
  | str t => simp [Json.index?] at hs
  | arr l => simp [Json.index?] at hs

/-- A commit whose detail fetch fails is skipped (`some none`), not an error. -/
theorem withDiffStep_skip_detail (fetchDetail : Json → Response) (c : Json) (s : String)
    (hs : c.index? "sha" = some (.str s)) (hne : s ≠ "")
    (hfail : (fetchDetail (.str s)).status ≠ 200) :
    withDiffStep fetchDetail c = some none := by
  cases c with
  | obj fields =>
    simp only [Json.index?] at hs
    simp [withDiffStep, Json.get?, hs, Json.truthy, hne, hfail]
  | null => simp [Json.index?] at hs
  | bool b => simp [Json.index?] at hs
  | num n => simp [Json.index?] at hs
  | str t => simp [Json.index?] at hs
  | arr l => simp [Json.index?] at hs

/-- A commit object whose "sha" is missing, null or the empty string is
skipped by the diff loop before any detail fetch can matter. -/
theorem withDiffStep_skip_sha (fetchDetail : Json → Response) (fields : List (String × Json))
    (hsha : dictGet fields "sha" = none ∨ dictGet fields "sha" = some .null ∨
            dictGet fields "sha" = some (.str "")) :
    withDiffStep fetchDetail (.obj fields) = some none := by
  rcases hsha with h | h | h <;> simp [withDiffStep, Json.get?, h, Json.truthy]

/-- Same skip for the messages-and-patches loop. -/
theorem messagesStep_skip_sha (fetchDetail : Json → Response) (fields : List (String × Json))
    (hsha : dictGet fields "sha" = none ∨ dictGet fields "sha" = some .null ∨
            dictGet fields "sha" = some (.str "")) :
    messagesStep fetchDetail (.obj fields) = some none := by
  rcases hsha with h | h | h <;> simp [messagesStep, Json.get?, h, Json.truthy]

/-- C1: for every commit list of N commits returned by the primary list fetch,
if the per-commit detail fetch succeeds for every commit, the aggregate
endpoint yields exactly N entries in the original list order, the entry at
each position carrying the same sha as the commit at that position; the empty
list yields an empty output, not an error. -/
theorem c1_aggregate_preserves_list (branch since untilS : Option String)
    (fetchDetail : Json → Response) (commits : List Json)
    (hsha : ∀ c ∈ commits, ∃ s : String, c.index? "sha" = some (.str s) ∧ s ≠ "")
    (hdet : ∀ s : String, (∃ c ∈ commits, c.index? "sha" = some (.str s)) →
      (fetchDetail (.str s)).status = 200 ∧ (fetchDetail (.str s)).body.isObj = true) :
    ∃ entries : List Json,
      get_commits_with_diff branch since untilS (fun _ => ⟨200, .arr commits⟩) fetchDetail
        = .ok (.arr entries)
      ∧ entries.length = commits.length
      ∧ entries.map (fun e => e.index? "sha") = commits.map (fun c => c.index? "sha") := by
  have hstep : ∀ c ∈ commits, ∃ e, withDiffStep fetchDetail c = some (some e) ∧
      (fun c e => e.index? "sha" = c.index? "sha") c e := by
    intro c hc
    obtain ⟨s, hs, hne⟩ := hsha c hc
    obtain ⟨h200, hobj⟩ := hdet s ⟨c, hc, hs⟩
    obtain ⟨e, he, hes⟩ := withDiffStep_kept fetchDetail c s hs hne h200 hobj
    refine ⟨e, he, ?_⟩
    show e.index? "sha" = c.index? "sha"
    rw [hes, hs]
  obtain ⟨out, hout, hP⟩ := aggregateLoop_forall2 (withDiffStep fetchDetail) _ commits hstep
  refine ⟨out, ?_, ?_, forall2_map_eq _ _ hP⟩
  · simp [get_commits_with_diff, Json.asList?, hout]
  · exact (List.Forall₂.length_eq hP).symm

/-- Witness for C1 on a concrete two-commit list. -/
theorem c1_aggregate_preserves_list_witness :
    ∃ entries : List Json,
      get_commits_with_diff none none none
        (fun _ => ⟨200, .arr [.obj [("sha", .str "a1")],
                              .obj [("sha", .str "b2"), ("commit", .str "m")]]⟩)
        (fun _ => ⟨200, .obj [("files", .arr [])]⟩)
        = .ok (.arr entries)
      ∧ entries.length = ([.obj [("sha", .str "a1")],
                           .obj [("sha", .str "b2"), ("commit", .str "m")]] : List Json).length
      ∧ entries.map (fun e => e.index? "sha")
        = ([.obj [("sha", .str "a1")],
            .obj [("sha", .str "b2"), ("commit", .str "m")]] : List Json).map
            (fun c => c.index? "sha") :=
  c1_aggregate_preserves_list none none none (fun _ => ⟨200, .obj [("files", .arr [])]⟩)
    [.obj [("sha", .str "a1")], .obj [("sha", .str "b2"), ("commit", .str "m")]]
    (by
      intro c hc
      simp only [List.mem_cons, List.not_mem_nil, or_false] at hc
      rcases hc with rfl | rfl
      · exact ⟨"a1", rfl, by decide⟩
      · exact ⟨"b2", rfl, by decide⟩)
    (by intro s _; exact ⟨rfl, rfl⟩)

/-- C2: if the detail fetch fails for exactly the commit at one position and
succeeds for all others, the aggregate output has N-1 entries, omits exactly
that position's commit, preserves the relative order of the rest, and raises
no error. The failing commit sits between `pre` and `post` (1-indexed
position `pre.length + 1`). -/
theorem c2_failed_detail_omitted (branch since untilS : Option String)
    (fetchDetail : Json → Response) (pre post : List Json) (ck : Json) (sk : String)
    (hsha : ∀ c ∈ pre ++ post, ∃ s : String, c.index? "sha" = some (.str s) ∧ s ≠ "")
    (hck : ck.index? "sha" = some (.str sk)) (hkne : sk ≠ "")
    (hfail : (fetchDetail (.str sk)).status ≠ 200)
    (hok : ∀ s : String, (∃ c ∈ pre ++ post, c.index? "sha" = some (.str s)) →
      (fetchDetail (.str s)).status = 200 ∧ (fetchDetail (.str s)).body.isObj = true) :
    ∃ entries : List Json,
      get_commits_with_diff branch since untilS
        (fun _ => ⟨200, .arr (pre ++ ck :: post)⟩) fetchDetail
        = .ok (.arr entries)
      ∧ entries.length + 1 = (pre ++ ck :: post).length
      ∧ entries.map (fun e => e.index? "sha") = (pre ++ post).map (fun c => c.index? "sha") := by
  have hckskip : withDiffStep fetchDetail ck = some none :=
    withDiffStep_skip_detail fetchDetail ck sk hck hkne hfail
  have hstep : ∀ c ∈ pre ++ post, ∃ e, withDiffStep fetchDetail c = some (some e) ∧
      (fun c e => e.index? "sha" = c.index? "sha") c e := by
    intro c hc
    obtain ⟨s, hs, hne⟩ := hsha c hc
    obtain ⟨h200, hobj⟩ := hok s ⟨c, hc, hs⟩
    obtain ⟨e, he, hes⟩ := withDiffStep_kept fetchDetail c s hs hne h200 hobj
    refine ⟨e, he, ?_⟩
    show e.index? "sha" = c.index? "sha"
    rw [hes, hs]
  obtain ⟨out, hout, hP⟩ :=
    aggregateLoop_forall2 (withDiffStep fetchDetail) _ (pre ++ post) hstep
  have hloop : aggregateLoop (withDiffStep fetchDetail) (pre ++ ck :: post) = some out := by
    rw [aggregateLoop_skip_mid (withDiffStep fetchDetail) ck hckskip pre post, hout]
  refine ⟨out, ?_, ?_, forall2_map_eq _ _ hP⟩
  · simp [get_commits_with_diff, Json.asList?, hloop]
  · have hlen := List.Forall₂.length_eq hP
    simp only [List.length_append] at hlen ⊢
    simp [← hlen]
    omega

/-- Witness for C2: three commits, the middle detail fetch fails. -/
theorem c2_failed_detail_omitted_witness :
    ∃ entries : List Json,
      get_commits_with_diff none none none
        (fun _ => ⟨200, .arr [.obj [("sha", .str "a1")], .obj [("sha", .str "bad")],
                              .obj [("sha", .str "c3")]]⟩)
        (fun sha => if sha.eqStr "bad" then ⟨500, .null⟩ else ⟨200, .obj []⟩)
        = .ok (.arr entries)
      ∧ entries.length + 1
        = (([.obj [("sha", .str "a1")]] : List Json) ++ Json.obj [("sha", .str "bad")]
            :: [.obj [("sha", .str "c3")]]).length
      ∧ entries.map (fun e => e.index? "sha")
        = (([.obj [("sha", .str "a1")]] : List Json)
            ++ ([.obj [("sha", .str "c3")]] : List Json)).map
            (fun c => c.index? "sha") :=
  c2_failed_detail_omitted none none none
    (fun sha => if sha.eqStr "bad" then ⟨500, .null⟩ else ⟨200, .obj []⟩)
    [.obj [("sha", .str "a1")]] [.obj [("sha", .str "c3")]] (.obj [("sha", .str "bad")]) "bad"
    (by
      intro c hc
      simp only [List.cons_append, List.nil_append, List.mem_cons,
        List.not_mem_nil, or_false] at hc
      rcases hc with rfl | rfl
      · exact ⟨"a1", rfl, by decide⟩
      · exact ⟨"c3", rfl, by decide⟩)
    rfl (by decide) (by decide)
    (by
      intro s hs
      obtain ⟨c, hc, hcs⟩ := hs
      simp only [List.cons_append, List.nil_append, List.mem_cons,
        List.not_mem_nil, or_false] at hc
      rcases hc with rfl | rfl
      · cases hcs; exact ⟨rfl, rfl⟩
      · cases hcs; exact ⟨rfl, rfl⟩)

/-- C9: in both aggregation endpoints, a commit record whose "sha" field is
missing, null or the empty string is skipped silently: its loop step is a
plain `continue` (for every possible detail fetcher, so no detail call can
influence the run), it contributes no output entry and no error, and the
endpoint result equals the result on the list with that record removed. -/
theorem c9_falsy_sha_skipped (branch since untilS branchM : Option String)
    (sinceD untilD : Option Datetime)
    (fetchDetail fetchDetailM : Json → Response)
    (fields : List (String × Json)) (pre post : List Json)
    (hsha : dictGet fields "sha" = none ∨ dictGet fields "sha" = some .null ∨
            dictGet fields "sha" = some (.str "")) :
    withDiffStep fetchDetail (.obj fields) = some none
    ∧ messagesStep fetchDetailM (.obj fields) = some none
    ∧ get_commits_with_diff branch since untilS
        (fun _ => ⟨200, .arr (pre ++ .obj fields :: post)⟩) fetchDetail
      = get_commits_with_diff branch since untilS
        (fun _ => ⟨200, .arr (pre ++ post)⟩) fetchDetail
    ∧ get_commit_messages_and_changes branchM sinceD untilD
        (fun _ => ⟨200, .arr (pre ++ .obj fields :: post)⟩) fetchDetailM
      = get_commit_messages_and_changes branchM sinceD untilD
        (fun _ => ⟨200, .arr (pre ++ post)⟩) fetchDetailM := by
  have h1 := withDiffStep_skip_sha fetchDetail fields hsha
  have h2 := messagesStep_skip_sha fetchDetailM fields hsha
  refine ⟨h1, h2, ?_, ?_⟩
  · simp [get_commits_with_diff, Json.asList?,
      aggregateLoop_skip_mid (withDiffStep fetchDetail) (.obj fields) h1 pre post]
  · simp [get_commit_messages_and_changes, Json.asList?,
      aggregateLoop_skip_mid (messagesStep fetchDetailM) (.obj fields) h2 pre post]

/-- Witness for C9 on a concrete commit record with an empty sha. -/
theorem c9_falsy_sha_skipped_witness :
    withDiffStep (fun _ => ⟨200, .obj []⟩) (.obj [("sha", .str "")]) = some none
    ∧ messagesStep (fun _ => ⟨200, .obj []⟩) (.obj [("sha", .str "")]) = some none
    ∧ get_commits_with_diff none none none
        (fun _ => ⟨200, .arr ([] ++ .obj [("sha", .str "")] :: [.obj [("sha", .str "c3")]])⟩)
        (fun _ => ⟨200, .obj []⟩)
      = get_commits_with_diff none none none
        (fun _ => ⟨200, .arr ([] ++ [.obj [("sha", .str "c3")]])⟩)
        (fun _ => ⟨200, .obj []⟩)
    ∧ get_commit_messages_and_changes none none none
        (fun _ => ⟨200, .arr ([] ++ .obj [("sha", .str "")] :: [.obj [("sha", .str "c3")]])⟩)
        (fun _ => ⟨200, .obj []⟩)
      = get_commit_messages_and_changes none none none
        (fun _ => ⟨200, .arr ([] ++ [.obj [("sha", .str "c3")]])⟩)
        (fun _ => ⟨200, .obj []⟩) :=
  c9_falsy_sha_skipped none none none none none none
    (fun _ => ⟨200, .obj []⟩) (fun _ => ⟨200, .obj []⟩)
    [("sha", .str "")] [] [.obj [("sha", .str "c3")]]
    (Or.inr (Or.inr rfl))

/-- A non-200 commit-list response is propagated verbatim by the
messages-and-patches endpoint. -/
theorem messages_error_eq (branch : Option String) (since untilD : Option Datetime)
    (fetchList : List (String × String) → Response) (fetchDetail : Json → Response)
    (h : (fetchList (messagesParams branch since untilD)).status ≠ 200) :
    get_commit_messages_and_changes branch since untilD fetchList fetchDetail
      = .httpError (fetchList (messagesParams branch since untilD)).status
                   (fetchList (messagesParams branch since untilD)).body := by
  simp [get_commit_messages_and_changes, h]

/-- A 200 commit-list response never leads to a raised `HTTPException` in the
messages-and-patches endpoint (per-commit failures are skipped, malformed
bodies crash). -/
theorem messages_ok_not_error (branch : Option String) (since untilD : Option Datetime)
    (fetchList : List (String × String) → Response) (fetchDetail : Json → Response)
    (h : (fetchList (messagesParams branch since untilD)).status = 200)
    (s : Nat) (b : Json) :
    get_commit_messages_and_changes branch since untilD fetchList fetchDetail
      ≠ .httpError s b := by
  have hshape : get_commit_messages_and_changes branch since untilD fetchList fetchDetail =
      (match (fetchList (messagesParams branch since untilD)).body.asList? with
       | none => .crash
       | some commits =>
         match aggregateLoop (messagesStep fetchDetail) commits with
         | none => .crash
         | some entries => .ok (.arr entries)) := by
    simp [get_commit_messages_and_changes, h]
  rw [hshape]
  cases hl : (fetchList (messagesParams branch since untilD)).body.asList? with
  | none => simp
  | some commits =>
    cases hal : aggregateLoop (messagesStep fetchDetail) commits with
    | none => simp [hal]
    | some entries => simp [hal]

/-- C3 counterexample: an upstream 201 is a 2xx status, yet the endpoint
raises (it tests `status_code != 200`, not "non-2xx"). -/
theorem c3_counterexample :
    get_commit_messages_and_changes none none none (fun _ => ⟨201, .arr []⟩)
      (fun _ => ⟨200, .obj []⟩) = .httpError 201 (.arr [])
    ∧ 200 ≤ 201 ∧ 201 < 300 :=
  ⟨rfl, by decide, by decide⟩

/-- C3 amended: the messages-and-patches endpoint raises an error on its
primary commit-list fetch if and only if the upstream status is not exactly
200, and on failure the raised error carries exactly the upstream status code
and the upstream body unmodified (hence no partial output). -/
theorem c3_error_propagation_amended (branch : Option String) (since untilD : Option Datetime)
    (fetchList : List (String × String) → Response) (fetchDetail : Json → Response)
    (s : Nat) (b : Json) :
    get_commit_messages_and_changes branch since untilD fetchList fetchDetail = .httpError s b
      ↔ ((fetchList (messagesParams branch since untilD)).status ≠ 200
         ∧ s = (fetchList (messagesParams branch since untilD)).status
         ∧ b = (fetchList (messagesParams branch since untilD)).body) := by
  constructor
  · intro hres
    by_cases h : (fetchList (messagesParams branch since untilD)).status = 200
    · exact absurd hres (messages_ok_not_error branch since untilD fetchList fetchDetail h s b)
    · have heq := messages_error_eq branch since untilD fetchList fetchDetail h
      rw [heq] at hres
      injection hres with h1 h2
      exact ⟨h, h1.symm, h2.symm⟩
  · rintro ⟨h, rfl, rfl⟩
    exact messages_error_eq branch since untilD fetchList fetchDetail h

/-- On files whose "patch" is absent, null or a string, the patch loop
collects exactly the claim-side change records. -/
theorem patchLoop_eq_filterMap : ∀ fs : List Json,
    (∀ f ∈ fs, f.isObj = true ∧ (f.index? "patch" = none ∨ f.index? "patch" = some .null
      ∨ ∃ p : String, f.index? "patch" = some (.str p))) →
    patchLoop fs = some (fs.filterMap claimPatchEntry)
  | [], _ => rfl
  | f :: fs, h => by
    have ih := patchLoop_eq_filterMap fs (fun x hx => h x (List.mem_cons_of_mem f hx))
    obtain ⟨hfo, hp⟩ := h f (List.mem_cons_self f fs)
    cases f with
    | obj ff =>
      simp only [Json.index?] at hp
      rcases hp with hp | hp | ⟨p, hp⟩
      · simp [patchLoop, Json.get?, hp, Json.truthy, ih, claimPatchEntry, Json.index?]
      · simp [patchLoop, Json.get?, hp, Json.truthy, ih, claimPatchEntry, Json.index?]
      · by_cases hpe : p = ""
        · subst hpe
          simp [patchLoop, Json.get?, hp, Json.truthy, ih, claimPatchEntry, Json.index?]
        · simp [patchLoop, Json.get?, hp, Json.truthy, hpe, ih, claimPatchEntry, Json.index?]
    | null => simp [Json.isObj] at hfo
    | bool b => simp [Json.isObj] at hfo
    | num n => simp [Json.isObj] at hfo
    | str t => simp [Json.isObj] at hfo
    | arr l => simp [Json.isObj] at hfo

/-- C4: for every commit detail (an object whose "commit" entry, when present,
is an object, and whose "files" entry, when present, is a list of objects
with absent/null/string "patch"), the extracted record's message equals the
nested commit message value (empty string when absent at either level) and its
changes are, in file order, exactly the files with a non-empty, non-null
string patch, each emitted with its filename and patch; patchless files are
dropped entirely. -/
theorem c4_patch_extraction (detail : Json) (msgVal : Json) (fs : List Json)
    (hobj : detail.isObj = true)
    (hmsg : (detail.index? "commit" = none ∧ msgVal = .str "")
          ∨ (∃ cf : List (String × Json), detail.index? "commit" = some (.obj cf)
              ∧ ((dictGet cf "message" = none ∧ msgVal = .str "")
                 ∨ dictGet cf "message" = some msgVal)))
    (hfiles : (detail.index? "files" = none ∧ fs = [])
            ∨ detail.index? "files" = some (.arr fs))
    (hfwf : ∀ f ∈ fs, f.isObj = true
          ∧ (f.index? "patch" = none ∨ f.index? "patch" = some .null
             ∨ ∃ p : String, f.index? "patch" = some (.str p))) :
    extractPatches detail = some (.obj [("message", msgVal),
      ("changes", .arr (fs.filterMap claimPatchEntry))]) := by
  cases detail with
  | obj dfields =>
    have hloop := patchLoop_eq_filterMap fs hfwf
    have hcv : ∃ cf : List (String × Json),
        (dictGet dfields "commit").getD (.obj []) = .obj cf
        ∧ (dictGet cf "message").getD (.str "") = msgVal := by
      rcases hmsg with ⟨hc, rfl⟩ | ⟨cf, hc, hm⟩
      · simp only [Json.index?] at hc
        exact ⟨[], by simp [hc], rfl⟩
      · simp only [Json.index?] at hc
        refine ⟨cf, by simp [hc], ?_⟩
        rcases hm with ⟨hm, rfl⟩ | hm
        · simp [hm]
        · simp [hm]
    have hfv : (dictGet dfields "files").getD (.arr []) = .arr fs := by
      rcases hfiles with ⟨hf, rfl⟩ | hf
      · simp only [Json.index?] at hf
        simp [hf]
      · simp only [Json.index?] at hf
        simp [hf]
    obtain ⟨cf, hcf, hm⟩ := hcv
    simp [extractPatches, Json.get?, hcf, hm, hfv, Json.asList?, hloop]
  | null => simp [Json.isObj] at hobj
  | bool b => simp [Json.isObj] at hobj
  | num n => simp [Json.isObj] at hobj
  | str t => simp [Json.isObj] at hobj
  | arr l => simp [Json.isObj] at hobj

/-- Witness for C4 on the spec's example: a file with a patch is kept, a file
with a null patch is dropped. -/
theorem c4_patch_extraction_witness :
    extractPatches (.obj [("commit", .obj [("message", .str "fix")]),
        ("files", .arr [.obj [("filename", .str "a.py"), ("patch", .str "@@x@@")],
                        .obj [("filename", .str "b.bin"), ("patch", .null)]])])
      = some (.obj [("message", .str "fix"),
          ("changes", .arr (List.filterMap claimPatchEntry
            [.obj [("filename", .str "a.py"), ("patch", .str "@@x@@")],
             .obj [("filename", .str "b.bin"), ("patch", .null)]]))]) :=
  c4_patch_extraction
    (.obj [("commit", .obj [("message", .str "fix")]),
        ("files", .arr [.obj [("filename", .str "a.py"), ("patch", .str "@@x@@")],
                        .obj [("filename", .str "b.bin"), ("patch", .null)]])])
    (.str "fix")
    [.obj [("filename", .str "a.py"), ("patch", .str "@@x@@")],
     .obj [("filename", .str "b.bin"), ("patch", .null)]]
    rfl
    (Or.inr ⟨[("message", .str "fix")], rfl, Or.inr rfl⟩)
    (Or.inr rfl)
    (by
      intro f hf
      simp only [List.mem_cons, List.not_mem_nil, or_false] at hf
      rcases hf with rfl | rfl
      · exact ⟨rfl, Or.inr (Or.inr ⟨"@@x@@", rfl⟩)⟩
      · exact ⟨rfl, Or.inr (Or.inl rfl)⟩)

/-- C8 counterexample: `branch` supplied as the empty string is a present
parameter, yet no `sha` query parameter is sent at all (Python truthiness
treats `""` like `None`). -/
theorem c8_counterexample :
    (some "" : Option String) ≠ none
    ∧ commitListParams (some "") none none = []
    ∧ messagesParams (some "") none none = [] :=
  ⟨by decide, rfl, rfl⟩

/-- C8 amended: a `sha`/`since`/`until` query parameter is sent iff the
corresponding caller parameter is present and truthy (for the string-typed
parameters, non-empty; datetimes are always truthy), and its value is passed
through unmodified, with datetimes serialized via `isoformat`; absent or
empty parameters are omitted entirely. -/
theorem c8_params_passthrough_amended (branch since untilS branchM : Option String)
    (sinceD untilD : Option Datetime) :
    (∀ v : String, ("sha", v) ∈ commitListParams branch since untilS
        ↔ (branch = some v ∧ v ≠ ""))
    ∧ (∀ v : String, ("since", v) ∈ commitListParams branch since untilS
        ↔ (since = some v ∧ v ≠ ""))
    ∧ (∀ v : String, ("until", v) ∈ commitListParams branch since untilS
        ↔ (untilS = some v ∧ v ≠ ""))
    ∧ (∀ v : String, ("sha", v) ∈ messagesParams branchM sinceD untilD
        ↔ (branchM = some v ∧ v ≠ ""))
    ∧ (∀ v : String, ("since", v) ∈ messagesParams branchM sinceD untilD
        ↔ (∃ d : Datetime, sinceD = some d ∧ v = d.isoformat))
    ∧ (∀ v : String, ("until", v) ∈ messagesParams branchM sinceD untilD
        ↔ (∃ d : Datetime, untilD = some d ∧ v = d.isoformat)) := by
  refine ⟨?_, ?_, ?_, ?_, ?_, ?_⟩ <;> intro v
  · rcases branch with _ | b <;> rcases since with _ | s <;> rcases untilS with _ | u <;>
      simp only [commitListParams] <;> (try split_ifs) <;>
      simp_all [List.mem_append, Prod.mk.injEq, eq_comm]
  · rcases branch with _ | b <;> rcases since with _ | s <;> rcases untilS with _ | u <;>
      simp only [commitListParams] <;> (try split_ifs) <;>
      simp_all [List.mem_append, Prod.mk.injEq, eq_comm]
  · rcases branch with _ | b <;> rcases since with _ | s <;> rcases untilS with _ | u <;>
      simp only [commitListParams] <;> (try split_ifs) <;>
      simp_all [List.mem_append, Prod.mk.injEq, eq_comm]
  · rcases branchM with _ | b <;> rcases sinceD with _ | ds <;> rcases untilD with _ | du <;>
      simp only [messagesParams] <;> (try split_ifs) <;>
      simp_all [List.mem_append, Prod.mk.injEq, eq_comm]
  · rcases branchM with _ | b <;> rcases sinceD with _ | ds <;> rcases untilD with _ | du <;>
      simp only [messagesParams] <;> (try split_ifs) <;>
      simp_all [List.mem_append, Prod.mk.injEq, eq_comm]
  · rcases branchM with _ | b <;> rcases sinceD with _ | ds <;> rcases untilD with _ | du <;>
      simp only [messagesParams] <;> (try split_ifs) <;>
      simp_all [List.mem_append, Prod.mk.injEq, eq_comm]

/-- Python `"" in s` is always true. -/
theorem pyStrIn_empty (s : String) : pyStrIn "" s = true :=
  containsFrom_nil s.toList

/-- The scan selects the first project whose lowercased title contains the
needle, skipping earlier non-matching projects. -/
theorem findProject_first (fl : String) : ∀ (pre post : List Json) (q : Json) (tq : String),
    (∀ p ∈ pre, ∃ t : String, p.index? "title" = some (.str t)
      ∧ pyStrIn fl (pyLower t) = false) →
    q.index? "title" = some (.str tq) → pyStrIn fl (pyLower tq) = true →
    findProject fl (pre ++ q :: post) = some (some q)
  | [], post, q, tq, _, hq, hm => by
    cases q with
    | obj qf =>
      simp only [Json.index?] at hq
      simp [findProject, Json.index?, hq, Json.asStr?, hm]
    | null => simp [Json.index?] at hq
    | bool b => simp [Json.index?] at hq
    | num n => simp [Json.index?] at hq
    | str t => simp [Json.index?] at hq
    | arr l => simp [Json.index?] at hq
  | p :: pre, post, q, tq, hpre, hq, hm => by
    obtain ⟨t, ht, hf⟩ := hpre p (List.mem_cons_self p pre)
    have ih := findProject_first fl pre post q tq
      (fun x hx => hpre x (List.mem_cons_of_mem p hx)) hq hm
    cases p with
    | obj pf =>
      simp only [Json.index?] at ht
      simp [findProject, Json.index?, ht, Json.asStr?, hf, ih]
    | null => simp [Json.index?] at ht
    | bool b => simp [Json.index?] at ht
    | num n => simp [Json.index?] at ht
    | str s => simp [Json.index?] at ht
    | arr l => simp [Json.index?] at ht

/-- When no project title matches, the scan ends with no selection. -/
theorem findProject_none (fl : String) : ∀ nodes : List Json,
    (∀ p ∈ nodes, ∃ t : String, p.index? "title" = some (.str t)
      ∧ pyStrIn fl (pyLower t) = false) →
    findProject fl nodes = some none
  | [], _ => rfl
  | p :: nodes, h => by
    obtain ⟨t, ht, hf⟩ := h p (List.mem_cons_self p nodes)
    have ih := findProject_none fl nodes (fun x hx => h x (List.mem_cons_of_mem p hx))
    cases p with
    | obj pf =>
      simp only [Json.index?] at ht
      simp [findProject, Json.index?, ht, Json.asStr?, hf, ih]
    | null => simp [Json.index?] at ht
    | bool b => simp [Json.index?] at ht
    | num n => simp [Json.index?] at ht
    | str s => simp [Json.index?] at ht
    | arr l => simp [Json.index?] at ht

/-- C5: with a title filter given, the resolver selects the first project (in
list order) whose title contains the filter case-insensitively; with no
filter, it selects the first project of the list. (An empty-string filter is
falsy in the code, but then every title contains it, so the first project is
selected either way.) -/
theorem c5_project_resolution (f : String) (pre post : List Json) (q : Json) (tq : String)
    (htitles : ∀ p ∈ pre ++ q :: post, ∃ t : String, p.index? "title" = some (.str t))
    (hq : q.index? "title" = some (.str tq))
    (hmatch : pyStrIn (pyLower f) (pyLower tq) = true)
    (hpre : ∀ p ∈ pre, ∀ t : String, p.index? "title" = some (.str t) →
      pyStrIn (pyLower f) (pyLower t) = false) :
    selectProject (some f) (pre ++ q :: post) = some (some q)
    ∧ ∀ (q0 : Json) (rest : List Json), selectProject none (q0 :: rest) = some (some q0) := by
  constructor
  · by_cases hf : f = ""
    · subst hf
      have hpre0 : pre = [] := by
        cases pre with
        | nil => rfl
        | cons p ps =>
          obtain ⟨t, ht⟩ := htitles p (by simp)
          have hcontra := hpre p (by simp) t ht
          rw [show pyLower "" = "" from rfl, pyStrIn_empty] at hcontra
          cases hcontra
      subst hpre0
      simp [selectProject, strOptTruthy]
    · have hstep := findProject_first (pyLower f) pre post q tq
        (by
          intro p hp
          obtain ⟨t, ht⟩ := htitles p (List.mem_append_left _ hp)
          exact ⟨t, ht, hpre p hp t ht⟩)
        hq hmatch
      simp [selectProject, strOptTruthy, hf, hstep]
  · intro q0 rest
    rfl

/-- Witness for C5 on the spec's example: filter "SPRINT" selects
"Sprint 2024" past "Roadmap"; with no filter the first project is selected. -/
theorem c5_project_resolution_witness :
    selectProject (some "SPRINT")
      ([.obj [("id", .str "P1"), ("title", .str "Roadmap")]]
        ++ .obj [("id", .str "P2"), ("title", .str "Sprint 2024")] :: [])
      = some (some (.obj [("id", .str "P2"), ("title", .str "Sprint 2024")]))
    ∧ ∀ (q0 : Json) (rest : List Json), selectProject none (q0 :: rest) = some (some q0) :=
  c5_project_resolution "SPRINT"
    [.obj [("id", .str "P1"), ("title", .str "Roadmap")]] []
    (.obj [("id", .str "P2"), ("title", .str "Sprint 2024")]) "Sprint 2024"
    (by
      intro p hp
      simp only [List.cons_append, List.nil_append, List.mem_cons,
        List.not_mem_nil, or_false] at hp
      rcases hp with rfl | rfl
      · exact ⟨"Roadmap", rfl⟩
      · exact ⟨"Sprint 2024", rfl⟩)
    rfl
    (by decide)
    (by
      intro p hp t ht
      simp only [List.mem_cons, List.not_mem_nil, or_false] at hp
      subst hp
      cases ht
      decide)

/-- Lowercasing the empty string gives the empty string. -/
theorem pyLower_empty : pyLower "" = "" := rfl

/-- On well-formed field-value nodes, the source scan computes exactly the
claim-side first-match status. -/
theorem findStatus_eq_claim : ∀ fieldNodes : List Json,
    (∀ f ∈ fieldNodes, fieldWF f = true) →
    findStatus fieldNodes = some (claimStatusOf fieldNodes)
  | [], _ => rfl
  | f :: fs, h => by
    have hw := h f (List.mem_cons_self f fs)
    have ih := findStatus_eq_claim fs (fun x hx => h x (List.mem_cons_of_mem f hx))
    cases f with
    | obj ff =>
      simp only [fieldWF, Json.isObj, Json.index?, Bool.true_and] at hw
      cases hfld : dictGet ff "field" with
      | none =>
        simp [findStatus, Json.get?, hfld, dictGet, Json.asStr?, pyLower_empty,
          claimStatusOf, claimIsStatusField, Json.index?, List.find?, ih]
      | some fv =>
        simp only [hfld] at hw
        cases fv with
        | obj ffv =>
          cases hnm : dictGet ffv "name" with
          | none =>
            simp [findStatus, Json.get?, hfld, hnm, dictGet, Json.asStr?, pyLower_empty,
              claimStatusOf, claimIsStatusField, Json.index?, List.find?, ih]
          | some nv =>
            simp only [hnm] at hw
            cases nv with
            | str s =>
              by_cases hs : pyLower s = "status"
              · simp [findStatus, Json.get?, hfld, hnm, Json.asStr?, hs, claimStatusOf,
                  claimIsStatusField, Json.index?, List.find?]
              · simp [findStatus, Json.get?, hfld, hnm, Json.asStr?, hs, claimStatusOf,
                  claimIsStatusField, Json.index?, List.find?, ih]
            | null => simp at hw
            | bool b => simp at hw
            | num n => simp at hw
            | arr l => simp at hw
            | obj o => simp at hw
        | null => simp at hw
        | bool b => simp at hw
        | num n => simp at hw
        | str s => simp at hw
        | arr l => simp at hw
    | null => simp [fieldWF, Json.isObj] at hw
    | bool b => simp [fieldWF, Json.isObj] at hw
    | num n => simp [fieldWF, Json.isObj] at hw
    | str s => simp [fieldWF, Json.isObj] at hw
    | arr l => simp [fieldWF, Json.isObj] at hw

/-- A well-formed item always yields a record (the content lookups cannot
raise). -/
theorem todoRecord_isSome (fi : List (String × Json))
    (hc : (match dictGet fi "content" with
           | none => true
           | some (.obj _) => true
           | some _ => false) = true) :
    (todoRecord (.obj fi)).isSome = true := by
  cases hcv : dictGet fi "content" with
  | none => simp [todoRecord, Json.get?, hcv]
  | some cv =>
    simp only [hcv] at hc
    cases cv with
    | obj cf => simp [todoRecord, Json.get?, hcv]
    | null => simp at hc
    | bool b => simp at hc
    | num n => simp at hc
    | str s => simp at hc
    | arr l => simp at hc

/-- The status value the loop compares against "Todo" matches the claim-side
retention test. -/
theorem eqStr_todo_eq_claim (o : Option Json) :
    ((o.getD .null).eqStr "Todo")
      = (match o with
         | some (.str s) => s = "Todo"
         | _ => false) := by
  cases o with
  | none => rfl
  | some v => cases v <;> rfl

/-- On a well-formed item, one loop iteration keeps exactly the claim-retained
items, emitting the source record. -/
theorem todoStep_eq_claim (item : Json) (hw : itemWF item = true) :
    todoStep item = some (if claimRetained item then todoRecord item else none) := by
  cases item with
  | obj fi =>
    simp only [itemWF, Json.isObj, Json.index?, Bool.true_and, Bool.and_eq_true] at hw
    obtain ⟨hfv, hc⟩ := hw
    cases hfld : dictGet fi "fieldValues" with
    | none =>
      simp [todoStep, Json.get?, hfld, dictGet, Json.asList?, findStatus, Json.eqStr,
        claimRetained, claimFieldsOf, Json.index?, claimStatusOf, List.find?]
    | some fv =>
      simp only [hfld] at hfv
      cases fv with
      | obj fvf =>
        cases hnd : dictGet fvf "nodes" with
        | none =>
          simp [todoStep, Json.get?, hfld, hnd, dictGet, Json.asList?, findStatus, Json.eqStr,
            claimRetained, claimFieldsOf, Json.index?, claimStatusOf, List.find?]
        | some nd =>
          simp only [hnd] at hfv
          cases nd with
          | arr ns =>
            have hall : ∀ f ∈ ns, fieldWF f = true := by
              intro f hf
              simp only [List.all_eq_true] at hfv
              exact hfv f hf
            have hfs := findStatus_eq_claim ns hall
            have hclaim : claimFieldsOf (.obj fi) = ns := by
              simp [claimFieldsOf, Json.index?, hfld, hnd]
            by_cases hret : claimRetained (.obj fi) = true
            · have hret2 : (match claimStatusOf ns with
                  | some (.str s) => decide (s = "Todo")
                  | _ => false) = true := by
                have hx := hret
                simp only [claimRetained, hclaim] at hx
                exact hx
              obtain ⟨r, hr⟩ := Option.isSome_iff_exists.mp (todoRecord_isSome fi hc)
              simp [todoStep, Json.get?, hfld, hnd, Json.asList?, hfs,
                eqStr_todo_eq_claim, hret2, hret, hr]
            · have hret2 : (match claimStatusOf ns with
                  | some (.str s) => decide (s = "Todo")
                  | _ => false) = false := by
                have hx := Bool.of_not_eq_true hret
                simp only [claimRetained, hclaim] at hx
                exact hx
              simp [todoStep, Json.get?, hfld, hnd, Json.asList?, hfs,
                eqStr_todo_eq_claim, hret2, hret]
          | null => simp at hfv
          | bool b => simp at hfv
          | num n => simp at hfv
          | str s => simp at hfv
          | obj o => simp at hfv
      | null => simp at hfv
      | bool b => simp at hfv
      | num n => simp at hfv
      | str s => simp at hfv
      | arr l => simp at hfv
  | null => simp [itemWF, Json.isObj] at hw
  | bool b => simp [itemWF, Json.isObj] at hw
  | num n => simp [itemWF, Json.isObj] at hw
  | str s => simp [itemWF, Json.isObj] at hw
  | arr l => simp [itemWF, Json.isObj] at hw

/-- C7: over well-formed items, the todo loop retains exactly the items whose
claim-side status (the first field value whose field name is "Status"
case-insensitively) equals the literal "Todo" with exact case — items with no
"Status" field value are excluded — and emits their records in the original
item order. -/
theorem c7_todo_filter (items : List Json) (hwf : ∀ it ∈ items, itemWF it = true) :
    aggregateLoop todoStep items
      = some (items.filterMap (fun it => if claimRetained it then todoRecord it else none)) :=
  aggregateLoop_filterMap todoStep _ items (fun it hit => todoStep_eq_claim it (hwf it hit))

/-- Witness for C7 on the spec's examples: a "Todo" item is retained, an
"In Progress" item and an item with no "Status" field value are excluded. -/
theorem c7_todo_filter_witness :
    aggregateLoop todoStep
      [.obj [("id", .str "1"), ("fieldValues", .obj [("nodes", .arr
          [.obj [("field", .obj [("name", .str "Priority")]), ("name", .str "High")],
           .obj [("field", .obj [("name", .str "Status")]), ("name", .str "Todo")]])])],
       .obj [("fieldValues", .obj [("nodes", .arr
          [.obj [("field", .obj [("name", .str "Status")]), ("name", .str "In Progress")]])])],
       .obj [("fieldValues", .obj [("nodes", .arr
          [.obj [("field", .obj [("name", .str "Priority")]), ("name", .str "High")]])])]]
      = some (List.filterMap (fun it => if claimRetained it then todoRecord it else none)
          [.obj [("id", .str "1"), ("fieldValues", .obj [("nodes", .arr
              [.obj [("field", .obj [("name", .str "Priority")]), ("name", .str "High")],
               .obj [("field", .obj [("name", .str "Status")]), ("name", .str "Todo")]])])],
           .obj [("fieldValues", .obj [("nodes", .arr
              [.obj [("field", .obj [("name", .str "Status")]),
                     ("name", .str "In Progress")]])])],
           .obj [("fieldValues", .obj [("nodes", .arr
              [.obj [("field", .obj [("name", .str "Priority")]),
                     ("name", .str "High")]])])]]) :=
  c7_todo_filter _ (by decide)

/-- A 200 item response with a well-formed body always produces a successful
result, never an error. -/
theorem todoPhase_ok (b : Json) (hwb : itemsBodyWF b = true) :
    ∃ out, todoPhase ⟨200, b⟩ = .ok out := by
  cases b with
  | obj bf =>
    simp only [itemsBodyWF] at hwb
    cases hd : dictGet bf "data" with
    | none =>
      exact ⟨.obj [("project_title", .null), ("todo_items", .arr [])],
        by simp [todoPhase, projectDataOf, itemsNodesOf, Json.get?, hd, dictGet,
          Json.asList?, aggregateLoop]⟩
    | some dv =>
      simp only [hd] at hwb
      cases dv with
      | obj df =>
        cases hn : dictGet df "node" with
        | none =>
          exact ⟨.obj [("project_title", .null), ("todo_items", .arr [])],
            by simp [todoPhase, projectDataOf, itemsNodesOf, Json.get?, hd, hn, dictGet,
              Json.asList?, aggregateLoop]⟩
        | some nv =>
          simp only [hn] at hwb
          cases nv with
          | obj nf =>
            cases hi : dictGet nf "items" with
            | none =>
              exact ⟨.obj [("project_title", (dictGet nf "title").getD .null),
                  ("todo_items", .arr [])],
                by simp [todoPhase, projectDataOf, itemsNodesOf, Json.get?, hd, hn, hi, dictGet,
                  Json.asList?, aggregateLoop]⟩
            | some iv =>
              simp only [hi] at hwb
              cases iv with
              | obj itf =>
                cases hns : dictGet itf "nodes" with
                | none =>
                  exact ⟨.obj [("project_title", (dictGet nf "title").getD .null),
                      ("todo_items", .arr [])],
                    by simp [todoPhase, projectDataOf, itemsNodesOf, Json.get?, hd, hn, hi,
                      hns, dictGet, Json.asList?, aggregateLoop]⟩
                | some nsv =>
                  simp only [hns] at hwb
                  cases nsv with
                  | arr its =>
                    have hall : ∀ it ∈ its, itemWF it = true := by
                      intro it hit
                      simp only [List.all_eq_true] at hwb
                      exact hwb it hit
                    have hloop := aggregateLoop_filterMap todoStep
                      (fun it => if claimRetained it then todoRecord it else none) its
                      (fun it hit => todoStep_eq_claim it (hall it hit))
                    exact ⟨.obj [("project_title", (dictGet nf "title").getD .null),
                        ("todo_items", .arr (its.filterMap
                          (fun it => if claimRetained it then todoRecord it else none)))],
                      by simp [todoPhase, projectDataOf, itemsNodesOf, Json.get?, hd, hn, hi,
                        hns, Json.asList?, hloop]⟩
                  | null => simp at hwb
                  | bool b => simp at hwb
                  | num n => simp at hwb
                  | str s => simp at hwb
                  | obj o => simp at hwb
              | null => simp at hwb
              | bool b => simp at hwb
              | num n => simp at hwb
              | str s => simp at hwb
              | arr l => simp at hwb
          | null => simp at hwb
          | bool b => simp at hwb
          | num n => simp at hwb
          | str s => simp at hwb
          | arr l => simp at hwb
      | null => simp at hwb
      | bool b => simp at hwb
      | num n => simp at hwb
      | str s => simp at hwb
      | arr l => simp at hwb
  | null => simp [itemsBodyWF] at hwb
  | bool b => simp [itemsBodyWF] at hwb
  | num n => simp [itemsBodyWF] at hwb
  | str s => simp [itemsBodyWF] at hwb
  | arr l => simp [itemsBodyWF] at hwb

/-- Complete outcome analysis of the project scan over title-bearing projects:
either nothing matches (and the scan reports no selection), or some project is
selected. -/
theorem findProject_cases (fl : String) : ∀ nodes : List Json,
    (∀ p ∈ nodes, ∃ t : String, p.index? "title" = some (.str t)) →
    (findProject fl nodes = some none
      ∧ ∀ p ∈ nodes, ∀ t : String, p.index? "title" = some (.str t) →
          pyStrIn fl (pyLower t) = false)
    ∨ (∃ p, findProject fl nodes = some (some p) ∧ p ∈ nodes)
  | [], _ => Or.inl ⟨rfl, by simp⟩
  | p :: rest, h => by
    obtain ⟨t, ht⟩ := h p (List.mem_cons_self p rest)
    cases p with
    | obj pf =>
      simp only [Json.index?] at ht
      by_cases hm : pyStrIn fl (pyLower t) = true
      · refine Or.inr ⟨.obj pf, ?_, List.mem_cons_self _ rest⟩
        simp [findProject, Json.index?, ht, Json.asStr?, hm]
      · rcases findProject_cases fl rest (fun x hx => h x (List.mem_cons_of_mem _ hx)) with
          ⟨hnone, hall⟩ | ⟨q, hq, hqmem⟩
        · refine Or.inl ⟨?_, ?_⟩
          · simp [findProject, Json.index?, ht, Json.asStr?, hm, hnone]
          · intro x hx t2 ht2
            rcases List.mem_cons.mp hx with rfl | hx2
            · simp only [Json.index?, ht] at ht2
              cases ht2
              exact Bool.of_not_eq_true hm
            · exact hall x hx2 t2 ht2
        · refine Or.inr ⟨q, ?_, List.mem_cons_of_mem _ hqmem⟩
          simp [findProject, Json.index?, ht, Json.asStr?, hm, hq]
    | null => simp [Json.index?] at ht
    | bool b => simp [Json.index?] at ht
    | num n => simp [Json.index?] at ht
    | str s => simp [Json.index?] at ht
    | arr l => simp [Json.index?] at ht

/-- With a 200 project response carrying an empty project list, the endpoint
raises the domain 404. -/
theorem endpoint_empty_404 (filter : Option String) (projectRes : Response)
    (fetchItems : Json → Response)
    (h200 : projectRes.status = 200)
    (hbody : projectNodesOf projectRes.body = some (.arr [])) :
    get_repo_project_todo_items filter projectRes fetchItems
      = .httpError 404 (.str "해당 레포에 연결된 Project v2가 없습니다.") := by
  simp [get_repo_project_todo_items, h200, hbody, Json.truthy]

/-- With a nonempty project list and the scan reporting no selection, the
endpoint raises the filter-mismatch 404. -/
theorem endpoint_nomatch_404 (filter : Option String) (projectRes : Response)
    (fetchItems : Json → Response) (q : Json) (rest : List Json)
    (h200 : projectRes.status = 200)
    (hbody : projectNodesOf projectRes.body = some (.arr (q :: rest)))
    (hsel : selectProject filter (q :: rest) = some none) :
    get_repo_project_todo_items filter projectRes fetchItems
      = .httpError 404 (.str ("'" ++ filter.getD ""
          ++ "'에 해당하는 프로젝트를 찾을 수 없습니다.")) := by
  simp [get_repo_project_todo_items, h200, hbody, Json.truthy, Json.asList?, hsel]

/-- With a selected project carrying an id, the endpoint delegates to the item
phase on the second GraphQL response. -/
theorem endpoint_selected (filter : Option String) (projectRes : Response)
    (fetchItems : Json → Response) (q : Json) (rest : List Json) (p pid : Json)
    (h200 : projectRes.status = 200)
    (hbody : projectNodesOf projectRes.body = some (.arr (q :: rest)))
    (hsel : selectProject filter (q :: rest) = some (some p))
    (hpid : p.index? "id" = some pid) :
    get_repo_project_todo_items filter projectRes fetchItems
      = todoPhase (fetchItems pid) := by
  simp [get_repo_project_todo_items, h200, hbody, Json.truthy, Json.asList?, hsel, hpid]

/-- C6: under a successful project-list fetch over well-formed projects (and
well-formed 200 item responses), the endpoint raises an HTTP 404 exactly in
the two domain cases — empty project list, or a truthy title filter matching
no project title — while a non-200 status on either GraphQL call is
propagated verbatim instead of becoming a 404. -/
theorem c6_project_404_cases (filter : Option String) (projectRes : Response)
    (fetchItems : Json → Response) (nodes : List Json)
    (h200 : projectRes.status = 200)
    (hbody : projectNodesOf projectRes.body = some (.arr nodes))
    (htitle : ∀ p ∈ nodes, ∃ t : String, p.index? "title" = some (.str t))
    (hid : ∀ p ∈ nodes, ∃ i, p.index? "id" = some i)
    (hitems : ∀ j : Json, (fetchItems j).status = 200
      ∧ itemsBodyWF (fetchItems j).body = true) :
    ((∃ d, get_repo_project_todo_items filter projectRes fetchItems = .httpError 404 d)
      ↔ (nodes = [] ∨ (strOptTruthy filter = true
          ∧ ∀ p ∈ nodes, ∀ t : String, p.index? "title" = some (.str t) →
              pyStrIn (pyLower (filter.getD "")) (pyLower t) = false)))
    ∧ (∀ pr : Response, pr.status ≠ 200 →
        get_repo_project_todo_items filter pr fetchItems = .httpError pr.status pr.body)
    ∧ (∀ ir : Response, ir.status ≠ 200 → todoPhase ir = .httpError ir.status ir.body) := by
  refine ⟨?_, ?_, ?_⟩
  · cases nodes with
    | nil =>
      constructor
      · intro _
        exact Or.inl rfl
      · intro _
        exact ⟨_, endpoint_empty_404 filter projectRes fetchItems h200 hbody⟩
    | cons q rest =>
      by_cases hF : strOptTruthy filter = true
      · rcases findProject_cases (pyLower (filter.getD "")) (q :: rest) htitle with
          ⟨hnone, hall⟩ | ⟨p, hp, hpmem⟩
        · have hsel : selectProject filter (q :: rest) = some none := by
            simp [selectProject, hF, hnone]
          constructor
          · intro _
            exact Or.inr ⟨hF, hall⟩
          · intro _
            exact ⟨_, endpoint_nomatch_404 filter projectRes fetchItems q rest h200 hbody hsel⟩
        · have hsel : selectProject filter (q :: rest) = some (some p) := by
            simp [selectProject, hF, hp]
          obtain ⟨pid, hpid⟩ := hid p hpmem
          obtain ⟨out, hout⟩ := todoPhase_ok (fetchItems pid).body (hitems pid).2
          have hphase : todoPhase (fetchItems pid) = .ok out := by
            have hst := (hitems pid).1
            calc todoPhase (fetchItems pid)
                = todoPhase ⟨(fetchItems pid).status, (fetchItems pid).body⟩ := rfl
              _ = todoPhase ⟨200, (fetchItems pid).body⟩ := by rw [hst]
              _ = .ok out := hout
          have hend := endpoint_selected filter projectRes fetchItems q rest p pid
            h200 hbody hsel hpid
          rw [hend, hphase]
          constructor
          · rintro ⟨d, hd⟩
            cases hd
          · rintro (hnil | ⟨_, hall⟩)
            · cases hnil
            · have hnone := findProject_none (pyLower (filter.getD "")) (q :: rest)
                (by
                  intro x hx
                  obtain ⟨t, ht⟩ := htitle x hx
                  exact ⟨t, ht, hall x hx t ht⟩)
              rw [hp] at hnone
              cases hnone
      · have hsel : selectProject filter (q :: rest) = some (some q) := by
          simp [selectProject, hF]
        obtain ⟨pid, hpid⟩ := hid q (List.mem_cons_self q rest)
        obtain ⟨out, hout⟩ := todoPhase_ok (fetchItems pid).body (hitems pid).2
        have hphase : todoPhase (fetchItems pid) = .ok out := by
          have hst := (hitems pid).1
          calc todoPhase (fetchItems pid)
              = todoPhase ⟨(fetchItems pid).status, (fetchItems pid).body⟩ := rfl
            _ = todoPhase ⟨200, (fetchItems pid).body⟩ := by rw [hst]
            _ = .ok out := hout
        have hend := endpoint_selected filter projectRes fetchItems q rest q pid
          h200 hbody hsel hpid
        rw [hend, hphase]
        constructor
        · rintro ⟨d, hd⟩
          cases hd
        · rintro (hnil | ⟨hF2, _⟩)
          · cases hnil
          · exact absurd hF2 hF
  · intro pr hpr
    simp [get_repo_project_todo_items, hpr]
  · intro ir hir
    simp [todoPhase, hir]

/-- Witness for C6: one project titled "Roadmap", filter "x" matches nothing,
so a 404 exists; non-200 statuses propagate. -/
theorem c6_project_404_cases_witness :
    ((∃ d, get_repo_project_todo_items (some "x")
        ⟨200, .obj [("data", .obj [("repository", .obj [("projectsV2", .obj [("nodes",
          .arr [.obj [("id", .str "P1"), ("title", .str "Roadmap")]])])])])]⟩
        (fun _ => ⟨200, .obj []⟩) = .httpError 404 d)
      ↔ (([.obj [("id", .str "P1"), ("title", .str "Roadmap")]] : List Json) = []
          ∨ (strOptTruthy (some "x") = true
            ∧ ∀ p ∈ ([.obj [("id", .str "P1"), ("title", .str "Roadmap")]] : List Json),
              ∀ t : String, p.index? "title" = some (.str t) →
                pyStrIn (pyLower ((some "x").getD "")) (pyLower t) = false)))
    ∧ (∀ pr : Response, pr.status ≠ 200 →
        get_repo_project_todo_items (some "x") pr (fun _ => ⟨200, .obj []⟩)
          = .httpError pr.status pr.body)
    ∧ (∀ ir : Response, ir.status ≠ 200 → todoPhase ir = .httpError ir.status ir.body) :=
  c6_project_404_cases (some "x")
    ⟨200, .obj [("data", .obj [("repository", .obj [("projectsV2", .obj [("nodes",
      .arr [.obj [("id", .str "P1"), ("title", .str "Roadmap")]])])])])]⟩
    (fun _ => ⟨200, .obj []⟩)
    [.obj [("id", .str "P1"), ("title", .str "Roadmap")]]
    rfl rfl
    (by
      intro p hp
      simp only [List.mem_cons, List.not_mem_nil, or_false] at hp
      subst hp
      exact ⟨"Roadmap", rfl⟩)
    (by
      intro p hp
      simp only [List.mem_cons, List.not_mem_nil, or_false] at hp
      subst hp
      exact ⟨.str "P1", rfl⟩)
    (fun _ => ⟨rfl, rfl⟩)

/-- C10 counterexample: a 200 item response whose body has the full node
structure, a title "X" and an empty item-node list produces project_title "X",
not null. -/
theorem c10_counterexample :
    get_repo_project_todo_items none
      ⟨200, .obj [("data", .obj [("repository", .obj [("projectsV2", .obj [("nodes",
        .arr [.obj [("id", .str "PID"), ("title", .str "Roadmap")]])])])])]⟩
      (fun _ => ⟨200, .obj [("data", .obj [("node", .obj [("title", .str "X"),
        ("items", .obj [("nodes", .arr [])])])])]⟩)
      = .ok (.obj [("project_title", .str "X"), ("todo_items", .arr [])])
    ∧ Json.str "X" ≠ Json.null :=
  ⟨rfl, fun h => Json.noConfusion h⟩

/-- C10 amended: when the second GraphQL call returns 200 and its body's
data/node chain extracts to an object whose items/nodes chain extracts to an
empty list (keys absent at any level count, via the code's defaults), the item
phase returns a successful result with an empty todo_items list and with
project_title equal to the node's "title" value — null when absent — rather
than raising an error. -/
theorem c10_empty_items_amended (b : Json) (pd : List (String × Json))
    (hpd : projectDataOf b = some (.obj pd))
    (hempty : itemsNodesOf (.obj pd) = some (.arr [])) :
    todoPhase ⟨200, b⟩ = .ok (.obj [("project_title", (dictGet pd "title").getD .null),
      ("todo_items", .arr [])]) := by
  simp [todoPhase, hpd, hempty, Json.asList?, aggregateLoop, Json.get?]

/-- Witness for C10 amended on the fully-missing body `{}`: title null, no
items. -/
theorem c10_empty_items_amended_witness :
    todoPhase ⟨200, .obj []⟩ = .ok (.obj [("project_title",
      (dictGet ([] : List (String × Json)) "title").getD .null), ("todo_items", .arr [])]) :=
  c10_empty_items_amended (.obj []) [] rfl rfl
